import Mathlib

/-!
A verification development for the git-remote-dropbox helper.

The Python sources are shallowly embedded: Python strings are modelled as
lists of characters (so that slicing, splitting and stripping can be given
their exact Python semantics), Python bytes as lists of naturals, and the
external collaborators (the local git binary, the zlib codec, the Dropbox
SDK network calls) as explicit oracles or scripted outcome lists.  Each
definition below is translated from the corresponding function in
src/git_remote_dropbox/helper.py, src/git_remote_dropbox/git.py and
src/git_remote_dropbox/constants.py.
-/

namespace GitRemoteDropbox

/-- Python strings are modelled as lists of characters. -/
abbrev PyStr := List Char

/-- Coerce a Lean string literal to the model of Python strings. -/
def pystr (s : String) : PyStr := s.data

/-- Python bytes are modelled as lists of naturals (byte values). -/
abbrev Bytes := List Nat

/-- The characters Python's str.split() and str.strip() treat as whitespace
(restricted to the ASCII range, which is all that arises here). -/
def isWsChar (c : Char) : Bool :=
  c = ' ' || c = '\t' || c = '\n' || c = Char.ofNat 11 || c = Char.ofNat 12 || c = '\r'

/-- The bytes Python's bytes.split() treats as whitespace. -/
def isWsByte (b : Nat) : Bool :=
  b = 32 || b = 9 || b = 10 || b = 11 || b = 12 || b = 13

section ListUtil

variable {α : Type} [DecidableEq α]

/-- Python s.split(sep) semantics: split on every occurrence of the
separator, keeping empty pieces (so the result is never empty). -/
def splitOnSep (sep : α) : List α → List (List α)
  | [] => [[]]
  | a :: as =>
    let r := splitOnSep sep as
    if a = sep then [] :: r
    else (a :: r.headI) :: r.tail

/-- Python s.split(sep, 1) semantics followed by unpacking into two parts:
the part before the first separator and the part after it, or failure when
the separator does not occur. -/
def splitOnce (sep : α) : List α → Option (List α × List α)
  | [] => none
  | a :: as =>
    if a = sep then some ([], as)
    else (splitOnce sep as).map (fun p => (a :: p.1, p.2))

/-- Join pieces with a separator (inverse of splitOnSep on well-formed data). -/
def joinSep (sep : α) : List (List α) → List α
  | [] => []
  | [p] => p
  | p :: ps => p ++ sep :: joinSep sep ps

/-- Helper for splitWs carrying the (reversed) current token. -/
def splitWsAux (ws : α → Bool) : List α → List α → List (List α)
  | [], cur => if cur = [] then [] else [cur.reverse]
  | a :: as, cur =>
    if ws a then
      if cur = [] then splitWsAux ws as []
      else cur.reverse :: splitWsAux ws as []
    else splitWsAux ws as (a :: cur)

/-- Python s.split() semantics: split on runs of whitespace, dropping
empty pieces. -/
def splitWs (ws : α → Bool) (l : List α) : List (List α) :=
  splitWsAux ws l []

theorem splitOnSep_append_cons (sep : α) (l1 l2 : List α) (h : sep ∉ l1) :
    splitOnSep sep (l1 ++ sep :: l2) = l1 :: splitOnSep sep l2 := by
  induction l1 with
  | nil => simp [splitOnSep]
  | cons a as ih =>
    simp only [List.mem_cons, not_or] at h
    have hns : ¬ (a = sep) := fun he => h.1 he.symm
    rw [List.cons_append]
    show (let r := splitOnSep sep (as ++ sep :: l2);
      if a = sep then [] :: r else (a :: r.headI) :: r.tail) = _
    rw [ih h.2]
    simp [hns]

theorem splitOnSep_no_sep (sep : α) (l : List α) (h : sep ∉ l) :
    splitOnSep sep l = [l] := by
  induction l with
  | nil => rfl
  | cons a as ih =>
    simp only [List.mem_cons, not_or] at h
    have hns : ¬ (a = sep) := fun he => h.1 he.symm
    show (let r := splitOnSep sep as;
      if a = sep then [] :: r else (a :: r.headI) :: r.tail) = _
    rw [ih h.2]
    simp [hns]

/-- Splitting a joined list of separator-free pieces recovers the pieces. -/
theorem splitOnSep_joinSep (sep : α) (parts : List (List α))
    (hne : parts ≠ []) (h : ∀ p ∈ parts, sep ∉ p) :
    splitOnSep sep (joinSep sep parts) = parts := by
  induction parts with
  | nil => exact absurd rfl hne
  | cons p ps ih =>
    cases ps with
    | nil => exact splitOnSep_no_sep sep p (h p (by simp))
    | cons q qs =>
      show splitOnSep sep (p ++ sep :: joinSep sep (q :: qs)) = _
      rw [splitOnSep_append_cons sep p _ (h p (by simp))]
      rw [ih (by simp) (fun r hr => h r (List.mem_cons_of_mem _ hr))]

theorem splitOnce_append_cons (sep : α) (l1 l2 : List α) (h : sep ∉ l1) :
    splitOnce sep (l1 ++ sep :: l2) = some (l1, l2) := by
  induction l1 with
  | nil => simp [splitOnce]
  | cons a as ih =>
    simp only [List.mem_cons, not_or] at h
    have hns : ¬ (a = sep) := fun he => h.1 he.symm
    rw [List.cons_append]
    show (if a = sep then some ([], as ++ sep :: l2)
      else (splitOnce sep (as ++ sep :: l2)).map (fun p => (a :: p.1, p.2))) = _
    rw [ih h.2, if_neg hns]
    rfl

theorem splitWsAux_skip_token (ws : α → Bool) (tok rest cur : List α)
    (h : ∀ a ∈ tok, ws a = false) :
    splitWsAux ws (tok ++ rest) cur = splitWsAux ws rest (tok.reverse ++ cur) := by
  induction tok generalizing cur with
  | nil => simp
  | cons a as ih =>
    have ha : ws a = false := h a (by simp)
    rw [List.cons_append]
    show (if ws a then _ else splitWsAux ws (as ++ rest) (a :: cur)) = _
    rw [if_neg (by simp [ha])]
    rw [ih _ (fun x hx => h x (by simp [hx]))]
    simp

theorem splitWsAux_nil (ws : α → Bool) (cur : List α) :
    splitWsAux ws [] cur = if cur = [] then [] else [cur.reverse] := rfl

theorem splitWsAux_ws_cons (ws : α → Bool) (a : α) (as cur : List α)
    (ha : ws a = true) (hcur : cur ≠ []) :
    splitWsAux ws (a :: as) cur = cur.reverse :: splitWsAux ws as [] := by
  show (if ws a then if cur = [] then _ else cur.reverse :: splitWsAux ws as []
    else _) = _
  rw [if_pos ha, if_neg hcur]

/-- One whitespace-free token followed by a whitespace element: the token is
the head of Python str.split(). -/
theorem splitWs_token_cons (ws : α → Bool) (tok : List α) (sep : α) (rest : List α)
    (htok : ∀ a ∈ tok, ws a = false) (hne : tok ≠ []) (hsep : ws sep = true) :
    splitWs ws (tok ++ sep :: rest) = tok :: splitWs ws rest := by
  unfold splitWs
  rw [splitWsAux_skip_token ws tok _ [] htok]
  rw [splitWsAux_ws_cons ws sep rest _ hsep (by simpa using hne)]
  simp

/-- A single whitespace-free nonempty token splits to itself. -/
theorem splitWs_single (ws : α → Bool) (tok : List α)
    (htok : ∀ a ∈ tok, ws a = false) (hne : tok ≠ []) :
    splitWs ws tok = [tok] := by
  unfold splitWs
  rw [show tok = tok ++ ([] : List α) by simp, splitWsAux_skip_token ws tok [] [] htok]
  simp [splitWsAux_nil, hne]

omit [DecidableEq α] in
/-- If two separator-free lists each precede the same separator, a prefix
relationship between the combined lists forces the tokens to be equal. -/
theorem prefix_token_eq (sep : α) (A B A2 B2 : List α)
    (hA : sep ∉ A) (hB : sep ∉ B)
    (h : (A ++ sep :: A2) <+: (B ++ sep :: B2)) :
    A = B ∧ A2 <+: B2 := by
  induction A generalizing B with
  | nil =>
    cases B with
    | nil => simpa using h
    | cons b bs =>
      simp only [List.mem_cons, not_or] at hB
      simp only [List.nil_append, List.cons_append] at h
      have hb : sep = b := (List.cons_prefix_cons.mp h).1
      exact absurd hb hB.1
  | cons a as ih =>
    simp only [List.mem_cons, not_or] at hA
    cases B with
    | nil =>
      simp only [List.cons_append, List.nil_append] at h
      have hb : a = sep := (List.cons_prefix_cons.mp h).1
      exact absurd hb.symm hA.1
    | cons b bs =>
      simp only [List.mem_cons, not_or] at hB
      simp only [List.cons_append, List.cons_prefix_cons] at h
      have hrec := ih bs hA.2 hB.2 h.2
      exact ⟨by rw [h.1, hrec.1], hrec.2⟩

end ListUtil

section StripUtil

variable {α : Type}

/-- Python s.rstrip() semantics. -/
def rstripWs (ws : α → Bool) (l : List α) : List α :=
  (l.reverse.dropWhile ws).reverse

/-- Python s.strip() semantics. -/
def stripWs (ws : α → Bool) (l : List α) : List α :=
  rstripWs ws (l.dropWhile ws)

theorem rstripWs_append_ws (ws : α → Bool) (l : List α) (a : α) (ha : ws a = true) :
    rstripWs ws (l ++ [a]) = rstripWs ws l := by
  simp [rstripWs, List.dropWhile_cons, ha]

theorem rstripWs_no_trailing (ws : α → Bool) (l : List α)
    (h : ∀ a, l.getLast? = some a → ws a = false) :
    rstripWs ws l = l := by
  unfold rstripWs
  cases hl : l.reverse with
  | nil =>
    have : l = [] := by simpa using congrArg List.reverse hl
    simp [this]
  | cons a as =>
    have hlast : l.getLast? = some a := by
      rw [← List.reverse_reverse l, hl]
      simp [List.getLast?_reverse]
    rw [List.dropWhile_cons, h a hlast]
    simp only [Bool.false_eq_true, if_false]
    rw [← hl, List.reverse_reverse]

end StripUtil

/-- posixpath.join for the two-argument case as used in the helper. -/
def pyJoin (a b : PyStr) : PyStr :=
  if b.head? = some '/' then b
  else if a = [] ∨ a.getLast? = some '/' then a ++ b
  else a ++ '/' :: b

/-! ## Python exceptions and the fatal-exit path -/

/-- The Python-level outcomes that terminate the helper abnormally:
sys.exit(code) raised by Helper dot fatal, and uncaught exceptions. -/
inductive PyErr : Type
  | fatalExit (code : Nat) (msg : PyStr)
  | attributeError (msg : String)
  | valueError (msg : String)
  | indexError (msg : String)
  | uncaught (msg : String)
  deriving DecidableEq, Repr

/-! ## The Dropbox blob store (files API as consumed by the helper)

Each remote file carries an opaque revision token, modelled as a natural
number drawn from a per-store counter.  files_upload is called with
strict_conflict=True throughout the helper, so WriteMode.add fails when the
path exists and WriteMode.update(rev) fails unless the current revision
matches; both failures surface as an ApiError carrying an UploadError,
which the helper code treats as a conflict. -/

structure FileEntry where
  rev : Nat
  content : PyStr
  deriving DecidableEq, Repr

structure Remote where
  files : List (PyStr × FileEntry)
  counter : Nat
  deriving DecidableEq, Repr

namespace Remote

def lookup (r : Remote) (path : PyStr) : Option FileEntry :=
  (r.files.find? (fun e => e.1 = path)).map (·.2)

/-- Replace the entry at a path (or add it) with fresh-revision content. -/
def store (r : Remote) (path : PyStr) (data : PyStr) : Remote :=
  { files := (path, ⟨r.counter, data⟩) :: r.files.filter (fun e => ¬ e.1 = path),
    counter := r.counter + 1 }

end Remote

inductive WriteMode : Type
  | add
  | overwrite
  | update (rev : Nat)
  deriving DecidableEq, Repr

/-- dropbox files_upload with strict_conflict=True: Except.error () models
the ApiError-with-UploadError (conflict) outcome. -/
def filesUpload (r : Remote) (path : PyStr) (data : PyStr) (mode : WriteMode) :
    Except Unit Remote :=
  match mode with
  | .add =>
    match r.lookup path with
    | some _ => .error ()
    | none => .ok (r.store path data)
  | .overwrite => .ok (r.store path data)
  | .update rev =>
    match r.lookup path with
    | some entry => if entry.rev = rev then .ok (r.store path data) else .error ()
    | none => .error ()

/-- dropbox files_download: none models the ApiError-with-DownloadError
(not found) outcome. -/
def filesDownload (r : Remote) (path : PyStr) : Option (Nat × PyStr) :=
  (r.lookup path).map (fun e => (e.rev, e.content))

/-- dropbox files_delete; a missing path raises an ApiError carrying a
DeleteError, which every caller in the helper swallows, so deletion is
modelled as total removal. -/
def filesDelete (r : Remote) (path : PyStr) : Remote :=
  { r with files := r.files.filter (fun e => ¬ e.1 = path) }

/-! ## The local git facade (git.py functions that shell out)

The functions of git.py that only invoke the git binary and relay its
answer are modelled as oracle fields; the functions with parsing or
encoding logic of their own (encode_object, decode_object,
referenced_objects, write_object) are translated further below. -/

structure LocalGit where
  object_exists : PyStr → Bool
  is_ancestor : PyStr → PyStr → Bool
  ref_value : PyStr → PyStr
  list_objects : PyStr → List PyStr → List PyStr

/-! ## Helper session state (Helper.__init__) -/

structure Helper where
  path : PyStr
  refs : List (PyStr × (Nat × PyStr))
  pushed : List (PyStr × PyStr)
  first_push : Bool
  remote : Remote
  deriving DecidableEq, Repr

namespace Helper

def refsLookup (h : Helper) (name : PyStr) : Option (Nat × PyStr) :=
  (h.refs.find? (fun e => e.1 = name)).map (·.2)

def pushedLookup (h : Helper) (name : PyStr) : Option PyStr :=
  (h.pushed.find? (fun e => e.1 = name)).map (·.2)

/-- Helper dot ref path: raises ValueError unless the name starts with
the five characters r e f s slash. -/
def ref_path (h : Helper) (name : PyStr) : Except PyErr PyStr :=
  if (pystr "refs/").isPrefixOf name then .ok (pyJoin h.path name)
  else .error (.valueError "invalid ref name")

/-- Helper dot object path: two-character fan-out under objects/. -/
def object_path (h : Helper) (name : PyStr) : PyStr :=
  pyJoin (pyJoin (pyJoin h.path (pystr "objects")) (name.take 2)) (name.drop 2)

/-- Helper.read_symbolic_ref: download the file, slice off the first five
characters (the length of the literal prefix) and strip trailing
whitespace; a missing file yields None. -/
def read_symbolic_ref (h : Helper) (p : PyStr) : Option (Nat × PyStr) :=
  match filesDownload h.remote (pyJoin h.path p) with
  | none => none
  | some (rev, content) =>
    some (rev, rstripWs isWsChar (content.drop (pystr "ref: ").length))

/-- Helper.write_symbolic_ref: CAS when a revision is supplied, atomic add
otherwise; a conflict returns false. -/
def write_symbolic_ref (h : Helper) (p ref : PyStr) (rev : Option Nat) :
    Bool × Helper :=
  let path := pyJoin h.path p
  let mode := match rev with
    | some r => WriteMode.update r
    | none => WriteMode.add
  let data := pystr "ref: " ++ ref ++ pystr "\n"
  match filesUpload h.remote path data mode with
  | .error () => (false, h)
  | .ok r2 => (true, { h with remote := r2 })

/-- Remote-write events, used to state ordering properties: an object
upload to its object path, or a write attempt on a ref file. -/
inductive Event : Type
  | upload (sha : PyStr) (path : PyStr)
  | refWrite (path : PyStr)
  deriving DecidableEq, Repr

/-- The mode-selection prefix of Helper dot write ref: force means
Overwrite; otherwise a cached entry is checked for local existence and
fast-forwardness and yields a CAS update, and an absent entry yields an
atomic add.  Sum.inl carries the early-returned protocol error string. -/
def write_ref_mode (lg : LocalGit) (h : Helper) (new_sha dst : PyStr) (force : Bool) :
    Sum PyStr WriteMode :=
  if force then .inr .overwrite
  else
    match h.refsLookup dst with
    | some (rev, sha) =>
      if ¬ lg.object_exists sha then .inl (pystr "fetch first")
      else if ¬ lg.is_ancestor sha new_sha && ¬ force then .inl (pystr "non-fast forward")
      else .inr (.update rev)
    | none => .inr .add

/-- Helper dot write ref (the ref manager CAS policy).  Returns the
protocol error string (or none for success), the updated session state and
the remote-write events performed. -/
def write_ref (lg : LocalGit) (h : Helper) (new_sha dst : PyStr) (force : Bool) :
    Except PyErr (Option PyStr × Helper × List Event) := do
  let path ← h.ref_path dst
  match write_ref_mode lg h new_sha dst force with
  | .inl err => .ok (some err, h, [])
  | .inr mode =>
    let data := new_sha ++ pystr "\n"
    match filesUpload h.remote path data mode with
    | .error () => .ok (some (pystr "fetch first"), h, [.refWrite path])
    | .ok r2 => .ok (none, { h with remote := r2 }, [.refWrite path])

/-- The non-refusing tail of Helper dot delete: delete the remote file
(treating already-deleted as success) and purge the session caches. -/
def deleteRun (h : Helper) (ref : PyStr) : Except PyErr (List PyStr × Helper) := do
  let path ← h.ref_path ref
  let r2 := filesDelete h.remote path
  .ok ([pystr "ok " ++ ref],
    { h with remote := r2,
             refs := h.refs.filter (fun e => ¬ e.1 = ref),
             pushed := h.pushed.filter (fun e => ¬ e.1 = ref) })

/-- Helper dot delete: refuse when HEAD points at the ref, otherwise delete
the remote file and purge the session caches.  Returns the protocol lines
written and the updated state. -/
def delete (h : Helper) (ref : PyStr) : Except PyErr (List PyStr × Helper) :=
  match h.read_symbolic_ref (pystr "HEAD") with
  | some (_, target) =>
    if ref = target then
      .ok ([pystr "error " ++ ref ++ pystr " refusing to delete the current branch: "
            ++ target], h)
    else deleteRun h ref
  | none => deleteRun h ref

/-- Strip the force marker from the refspec source (Helper dot push,
first two lines). -/
def stripForce (src : PyStr) : PyStr × Bool :=
  if (pystr "+").isPrefixOf src then (src.drop 1, true) else (src, false)

/-- Upload every object in order via the per-object success oracle,
recording an upload event per object; the first failure aborts (modelling
the exception surfacing from the worker pool). -/
def uploadAll (h : Helper) (upOk : PyStr → Bool) : List PyStr → Except Unit (List Event)
  | [] => .ok []
  | o :: os =>
    if upOk o then (uploadAll h upOk os).map (Event.upload o (h.object_path o) :: ·)
    else .error ()

/-- Helper dot push: collect the shas the remote already holds, list the
objects to send, upload them all (aborting fatally on failure, or
re-raising at debug verbosity), then update the ref and report.  The
result carries the protocol lines, the new state and the remote-write
event trace in program order. -/
def push (lg : LocalGit) (upOk : PyStr → Bool) (verbosity : Nat) (h : Helper)
    (src dst : PyStr) : Except PyErr (List PyStr × Helper × List Event) := do
  let (src2, force) := stripForce src
  let present := h.refs.map (fun e => e.2.2) ++ h.pushed.map (fun e => e.2)
  let objects := lg.list_objects src2 present
  match uploadAll h upOk objects with
  | .error () =>
    if 2 ≤ verbosity then .error (.uncaught "exception while writing objects")
    else .error (.fatalExit 1
      (pystr "exception while writing objects (run with -v for details)"))
  | .ok evs =>
    let sha := lg.ref_value src2
    match ← write_ref lg h sha dst force with
    | (none, h2, evs2) =>
      .ok ([pystr "ok " ++ dst],
        { h2 with pushed := (dst, sha) :: h2.pushed.filter (fun e => ¬ e.1 = dst) },
        evs ++ evs2)
    | (some err, h2, evs2) =>
      .ok ([pystr "error " ++ dst ++ pystr " " ++ err], h2, evs ++ evs2)

/-- Parse one push command line: line.split(single-space)[1] unpacked at
the colon into source and destination. -/
def parsePushLine (line : PyStr) : Except PyErr (PyStr × PyStr) :=
  match (splitOnSep ' ' line)[1]? with
  | none => .error (.indexError "list index out of range")
  | some arg =>
    match splitOnSep ':' arg with
    | [s, d] => .ok (s, d)
    | _ => .error (.valueError "unpack")

/-- Helper do push: process a batch of push lines (the source reads lines
until the blank terminator; the batch is passed here as a list).  The
source guards the remote-HEAD bookkeeping with the condition now written
as: first-push and (remote head unset, or the refspec source equals
git.symbolic_ref of HEAD) -- but the git module defines only
symbolic_ref_value, so evaluating the second disjunct raises an
AttributeError.  At the terminator, on a first push with a recorded head,
the remote HEAD symbolic ref is written (a failed write is only logged). -/
def do_push (lg : LocalGit) (upOk : PyStr → Bool) (verbosity : Nat) :
    Helper → List PyStr → Option PyStr → List PyStr →
    Except PyErr (List PyStr × Helper)
  | h, [], remoteHead, outs =>
    if h.first_push then
      let h2 := { h with first_push := false }
      match remoteHead with
      | some rh =>
        let (_, h3) := write_symbolic_ref h2 (pystr "HEAD") rh none
        .ok (outs ++ [pystr ""], h3)
      | none => .ok (outs ++ [pystr ""], h2)
    else .ok (outs ++ [pystr ""], h)
  | h, line :: rest, remoteHead, outs => do
    let (src, dst) ← parsePushLine line
    if src = [] then
      let (o, h2) ← h.delete dst
      do_push lg upOk verbosity h2 rest remoteHead (outs ++ o)
    else do
      let (o, h2, _) ← push lg upOk verbosity h src dst
      if h2.first_push then
        match remoteHead with
        | none => do_push lg upOk verbosity h2 rest (some dst) (outs ++ o)
        | some _ =>
          .error (.attributeError
            "module git_remote_dropbox.git has no attribute symbolic_ref")
      else do_push lg upOk verbosity h2 rest remoteHead (outs ++ o)

end Helper

/-! ## git.py object codec (encode_object / decode_object / write_object)

The local object store maps shas to (kind, payload) pairs; the sha returned
by git hash-object is supplied by an oracle hash function (git computes it
over kind, size and payload).  zlib is an external library; its compress
and decompress are parameters whose only assumed property, where needed, is
that decompress inverts compress. -/

structure GitObject where
  kind : PyStr
  payload : Bytes
  deriving DecidableEq, Repr

abbrev LocalRepo := List (PyStr × GitObject)

def repoLookup (repo : LocalRepo) (sha : PyStr) : Option GitObject :=
  (repo.find? (fun e => e.1 = sha)).map (·.2)

def repoInsert (repo : LocalRepo) (sha : PyStr) (obj : GitObject) : LocalRepo :=
  (sha, obj) :: repo.filter (fun e => ¬ e.1 = sha)

/-- The hash git computes for an object of a given kind and payload. -/
abbrev GitHash := PyStr → Bytes → PyStr

/-- The zlib codec; decompress may fail on malformed input. -/
structure Codec where
  compress : Bytes → Bytes
  decompress : Bytes → Option Bytes

/-- str.encode for the ASCII strings arising here: the code points. -/
def strBytes (s : PyStr) : Bytes := s.map Char.toNat

/-- bytes.decode for the byte strings arising here. -/
def bytesStr (b : Bytes) : PyStr := b.map Char.ofNat

/-- The decimal digit string git prints for a size (cat-file -s output). -/
def decRepr (n : Nat) : PyStr :=
  if h : n < 10 then [Char.ofNat (48 + n)]
  else decRepr (n / 10) ++ [Char.ofNat (48 + n % 10)]
  decreasing_by exact Nat.div_lt_self (by omega) (by omega)

/-- git.write_object: pipe the payload to git hash-object -w --stdin -t
kind, store the object and return the sha git prints. -/
def write_object (hash : GitHash) (repo : LocalRepo) (kind : PyStr)
    (contents : Bytes) : PyStr × LocalRepo :=
  let sha := hash kind contents
  (sha, repoInsert repo sha ⟨kind, contents⟩)

/-- git.encode_object: read kind, size and raw contents and compose
kind SP size NUL payload, then zlib-compress; a missing object makes the
underlying git invocation fail. -/
def encode_object (z : Codec) (repo : LocalRepo) (sha : PyStr) : Option Bytes :=
  (repoLookup repo sha).map fun obj =>
    z.compress (strBytes obj.kind ++ [32] ++ strBytes (decRepr obj.payload.length)
      ++ [0] ++ obj.payload)

/-- git.decode_object: zlib-inflate, split the header at the first NUL,
take the first whitespace token of the header as the kind, then
write_object.  Failure of decompression, of the two-way unpacking or of the
header indexing surfaces as a Python exception (none here). -/
def decode_object (z : Codec) (hash : GitHash) (repo : LocalRepo) (data : Bytes) :
    Option (PyStr × LocalRepo) := do
  let decompressed ← z.decompress data
  let (header, contents) ← splitOnce 0 decompressed
  let kindTok ← (splitWs isWsByte header)[0]?
  some (write_object hash repo (bytesStr kindTok) contents)

/-- Store integrity: every object sits under the sha git would compute for
its content. -/
def repoWellFormed (hash : GitHash) (repo : LocalRepo) : Prop :=
  ∀ e ∈ repo, hash e.2.kind e.2.payload = e.1

/-! ## git.py referenced_objects

object_kind and object_data (the pretty-printed cat-file -p output) come
from the git binary; a GitCat value packages what git answers for one sha.
The parsing logic below is the translation of referenced_objects. -/

structure GitCat where
  kind : PyStr
  pretty : PyStr
  deriving DecidableEq, Repr

/-- The parent-collecting loop of the commit branch: scan the lines after
the first, appending the second token of every line that starts with the
parent prefix, stopping at the first line that does not. -/
def collect_parents : List PyStr → Except PyErr (List PyStr)
  | [] => .ok []
  | l :: ls =>
    if (pystr "parent ").isPrefixOf l then
      match (splitWs isWsChar l)[1]? with
      | none => .error (.indexError "list index out of range")
      | some p => (collect_parents ls).map (p :: ·)
    else .ok []

/-- The tree branch comprehension: the third token of every line that does
not start with the submodule marker. -/
def tree_line_shas : List PyStr → Except PyErr (List PyStr)
  | [] => .ok []
  | l :: ls =>
    if (pystr "160000 commit ").isPrefixOf l then tree_line_shas ls
    else
      match (splitWs isWsChar l)[2]? with
      | none => .error (.indexError "list index out of range")
      | some s => (tree_line_shas ls).map (s :: ·)

/-- git.referenced_objects: direct children of an object by kind. -/
def referenced_objects (c : GitCat) : Except PyErr (List PyStr) :=
  if c.kind = pystr "blob" then .ok []
  else
    let data := stripWs isWsChar c.pretty
    if c.kind = pystr "tag" then
      match (splitWs isWsChar (data.takeWhile (fun ch => ¬ ch = '\n')))[1]? with
      | none => .error (.indexError "list index out of range")
      | some obj => .ok [obj]
    else if c.kind = pystr "commit" then
      match splitOnSep '\n' data with
      | [] => .error (.indexError "list index out of range")
      | l0 :: rest =>
        match (splitWs isWsChar l0)[1]? with
        | none => .error (.indexError "list index out of range")
        | some tree => (collect_parents rest).map (tree :: ·)
    else if c.kind = pystr "tree" then
      if data = [] then .ok []
      else tree_line_shas (splitOnSep '\n' data)
    else .error (.valueError "unexpected git object type")

/-! ## constants.py -/

def MAX_RETRIES : Nat := 3

def CHUNK_SIZE : Nat := 50 * 1024 * 1024

/-! ## Helper dot put object (upload retry engine)

The network is modelled as a script: the outcome the Dropbox SDK produces
for each successive call (files_upload, files_upload_session_start,
files_upload_session_append_v2, files_upload_session_finish).  The chunk
contents forwarded to the SDK do not influence the control flow, which
depends only on the cursor offset, the payload length and the outcomes. -/

inductive NetOutcome : Type
  | ok
  | internalServerError
  | offsetError (correct : Nat)
  deriving DecidableEq, Repr

abbrev Script := List NetOutcome

inductive PutErr : Type
  | internalServerError
  | offsetError
  | scriptEnded
  deriving DecidableEq, Repr

/-- The single-shot branch of Helper dot put object: files_upload in a
retry loop that catches only InternalServerError. -/
def put_single (maxRetries : Nat) : Nat → Script → Except PutErr Script
  | _, [] => .error .scriptEnded
  | retries, o :: s =>
    match o with
    | .ok => .ok s
    | .internalServerError =>
      if retries < maxRetries then put_single maxRetries (retries + 1) s
      else .error .internalServerError
    | .offsetError _ => .error .offsetError

/-- The chunked-session branch of Helper dot put object: at offset zero the
session is started, while the chunk end stays short of the payload length
intermediate chunks are appended, and otherwise the session is finished; a
successful call advances the cursor by one chunk.  UploadSessionOffsetError
seeks the cursor to the server-reported offset; both it and
InternalServerError consume the one shared retry budget. -/
def put_chunked (chunkSize maxRetries dataLen : Nat) :
    Nat → Nat → Script → Except PutErr Script
  | _, _, [] => .error .scriptEnded
  | offset, retries, o :: s =>
    match o with
    | .ok =>
      if offset = 0 then put_chunked chunkSize maxRetries dataLen (offset + chunkSize) retries s
      else if offset + chunkSize < dataLen then
        put_chunked chunkSize maxRetries dataLen (offset + chunkSize) retries s
      else .ok s
    | .internalServerError =>
      if retries < maxRetries then put_chunked chunkSize maxRetries dataLen offset (retries + 1) s
      else .error .internalServerError
    | .offsetError c =>
      if retries < maxRetries then put_chunked chunkSize maxRetries dataLen c (retries + 1) s
      else .error .offsetError

/-- Helper dot put object: single-shot for payloads of at most CHUNK_SIZE
bytes, chunked session upload beyond that. -/
def put_object (data : Bytes) (s : Script) : Except PutErr Script :=
  if data.length ≤ CHUNK_SIZE then put_single MAX_RETRIES 0 s
  else put_chunked CHUNK_SIZE MAX_RETRIES data.length 0 0 s

/-! ## Helper dot download (fetch worker) and the output-queue handling -/

/-- A worker-queue item: an object sha or a poison pill. -/
inductive QItem : Type
  | item (sha : PyStr)
  | poison (msg : Option PyStr)
  deriving DecidableEq, Repr

/-- The body of Helper dot download for one input sha: fetch the file at
the object path (the download oracle maps remote object paths to their
bytes), decode-and-store it, and emit the poisoned mismatch result followed
by the sha when the computed sha differs, the sha alone otherwise; any
exception becomes a poison pill. -/
def download_step (z : Codec) (hash : GitHash) (h : Helper) (repo : LocalRepo)
    (dataOf : PyStr → Option Bytes) (obj : PyStr) : List QItem × LocalRepo :=
  match dataOf (h.object_path obj) with
  | none => ([.poison (some (pystr "exception while downloading"))], repo)
  | some data =>
    match decode_object z hash repo data with
    | none => ([.poison (some (pystr "exception while downloading"))], repo)
    | some (computed, repo2) =>
      if ¬ computed = obj then
        ([.poison (some (pystr "hash mismatch " ++ computed ++ pystr " != " ++ obj)),
          .item obj], repo2)
      else ([.item obj], repo2)

/-- The output-queue handling in the main loop of Helper dot fetch: a
poison pill with a message is fatal (the helper exits with status 1), a
poison pill without one is the impossible case raised as ValueError, and a
plain sha is handed on for bookkeeping. -/
def fetch_process_output (res : QItem) : Except PyErr PyStr :=
  match res with
  | .poison none => .error (.valueError "invalid Poison with no message")
  | .poison (some m) => .error (.fatalExit 1 m)
  | .item s => .ok s

/-! ## Supporting lemmas about the store and the session caches -/

theorem find_filter_none {β : Type} (l : List (PyStr × β)) (k : PyStr) :
    (l.filter (fun e => ¬ e.1 = k)).find? (fun e => e.1 = k) = none := by
  rw [List.find?_eq_none]
  intro x hx
  have hmem := (List.mem_filter.mp hx).2
  simpa using hmem

theorem store_lookup_self (r : Remote) (p d : PyStr) :
    (r.store p d).lookup p = some ⟨r.counter, d⟩ := by
  simp [Remote.store, Remote.lookup, List.find?]

theorem filesUpload_ok (r : Remote) (p d : PyStr) (m : WriteMode) (r2 : Remote)
    (h : filesUpload r p d m = .ok r2) : r2 = r.store p d := by
  cases m with
  | add =>
    cases hl : r.lookup p with
    | some e => simp [filesUpload, hl] at h
    | none => simp [filesUpload, hl] at h; exact h.symm
  | overwrite => simp [filesUpload] at h; exact h.symm
  | update rev =>
    cases hl : r.lookup p with
    | some e =>
      by_cases hrev : e.rev = rev
      · simp [filesUpload, hl, hrev] at h; exact h.symm
      · simp [filesUpload, hl, hrev] at h
    | none => simp [filesUpload, hl] at h

/-! ## Claim theorems -/

deriving instance DecidableEq for Except

theorem except_bind_ok {ε α β : Type} (x : α) (f : α → Except ε β) :
    (Except.ok x : Except ε α) >>= f = f x := rfl

/-- C3: a call to write_ref with force false, a session cache entry
(rev, old_sha) for dst, old_sha present locally and is_ancestor(old, new)
false returns the string non-fast forward, leaves the session state (and
with it the remote) unchanged, and performs no remote write at all (an
empty remote-write event list). -/
theorem write_ref_non_fast_forward (lg : LocalGit) (h : Helper)
    (new_sha dst old : PyStr) (rev : Nat)
    (hdst : (pystr "refs/").isPrefixOf dst = true)
    (hcache : h.refsLookup dst = some (rev, old))
    (hex : lg.object_exists old = true)
    (hanc : lg.is_ancestor old new_sha = false) :
    Helper.write_ref lg h new_sha dst false
      = .ok (some (pystr "non-fast forward"), h, []) := by
  unfold Helper.write_ref Helper.ref_path Helper.write_ref_mode
  simp [hdst, hcache, hex, hanc, except_bind_ok]

def lgW : LocalGit :=
  ⟨fun _ => true, fun _ _ => false, fun _ => pystr "", fun _ _ => []⟩

def hW : Helper :=
  ⟨pystr "/repo", [(pystr "refs/heads/main", (0, pystr "aa"))], [], false, ⟨[], 0⟩⟩

/-- Witness for C3 at a concrete session state. -/
theorem write_ref_non_fast_forward_witness :
    Helper.write_ref lgW hW (pystr "bb") (pystr "refs/heads/main") false
      = .ok (some (pystr "non-fast forward"), hW, []) :=
  write_ref_non_fast_forward lgW hW (pystr "bb") (pystr "refs/heads/main")
    (pystr "aa") 0 (by decide) (by decide) rfl rfl

def lgC4 : LocalGit :=
  ⟨fun _ => true, fun _ _ => true, fun _ => pystr "", fun _ _ => []⟩

def hC4 : Helper :=
  ⟨pystr "/repo", [], [],
   false, ⟨[(pystr "/repo/refs/heads/b", ⟨0, pystr "ff\n"⟩)], 1⟩⟩

/-- C4 counterexample: with no session cache entry for dst but force true,
the code writes in Overwrite mode, not Add mode: the upload succeeds and
returns success even though the path already exists on the remote, where
an Add-mode write would have reported a conflict (fetch first). -/
theorem write_ref_no_entry_counterexample :
    Helper.refsLookup hC4 (pystr "refs/heads/b") = none ∧
    filesUpload hC4.remote (pystr "/repo/refs/heads/b") (pystr "ee\n") .add
      = .error () ∧
    Helper.write_ref lgC4 hC4 (pystr "ee") (pystr "refs/heads/b") true
      = .ok (none,
          Helper.mk (pystr "/repo") [] [] false
            (hC4.remote.store (pystr "/repo/refs/heads/b") (pystr "ee\n")),
          [.refWrite (pystr "/repo/refs/heads/b")]) := by
  refine ⟨rfl, rfl, ?_⟩
  decide

/-- C4 amended: with no session cache entry for dst and force FALSE the
write is performed in Add mode: a store conflict returns fetch first with
the state unchanged, and on success the call returns none having written
exactly new_sha followed by a single newline to the ref path (while with
force true the mode is Overwrite regardless of the cache). -/
theorem write_ref_no_entry (lg : LocalGit) (h : Helper) (new_sha dst : PyStr)
    (hdst : (pystr "refs/").isPrefixOf dst = true)
    (hnone : h.refsLookup dst = none) :
    (∀ entry, h.remote.lookup (pyJoin h.path dst) = some entry →
      Helper.write_ref lg h new_sha dst false
        = .ok (some (pystr "fetch first"), h, [.refWrite (pyJoin h.path dst)])) ∧
    (h.remote.lookup (pyJoin h.path dst) = none →
      Helper.write_ref lg h new_sha dst false
        = .ok (none,
            { h with remote := h.remote.store (pyJoin h.path dst) (new_sha ++ pystr "\n") },
            [.refWrite (pyJoin h.path dst)]) ∧
      (h.remote.store (pyJoin h.path dst) (new_sha ++ pystr "\n")).lookup (pyJoin h.path dst)
        = some ⟨h.remote.counter, new_sha ++ pystr "\n"⟩) := by
  constructor
  · intro entry hentry
    unfold Helper.write_ref Helper.ref_path Helper.write_ref_mode
    simp [hdst, hnone, filesUpload, hentry, except_bind_ok]
  · intro hnofile
    constructor
    · unfold Helper.write_ref Helper.ref_path Helper.write_ref_mode
      simp [hdst, hnone, filesUpload, hnofile, except_bind_ok]
    · exact store_lookup_self _ _ _

def hC4e : Helper := ⟨pystr "/repo", [], [], false, ⟨[], 0⟩⟩

/-- Witness for the amended C4 at concrete states covering both the
conflict and the success case. -/
theorem write_ref_no_entry_witness :
    (Helper.write_ref lgC4 hC4 (pystr "ee") (pystr "refs/heads/b") false
      = .ok (some (pystr "fetch first"), hC4,
          [.refWrite (pyJoin hC4.path (pystr "refs/heads/b"))])) ∧
    (Helper.write_ref lgC4 hC4e (pystr "ee") (pystr "refs/heads/b") false
      = .ok (none,
          { hC4e with remote :=
              (hC4e.remote.store (pyJoin hC4e.path (pystr "refs/heads/b"))
                (pystr "ee" ++ pystr "\n")) },
          [.refWrite (pyJoin hC4e.path (pystr "refs/heads/b"))])) := by
  constructor
  · exact (write_ref_no_entry lgC4 hC4 (pystr "ee") (pystr "refs/heads/b")
      (by decide) rfl).1 ⟨0, pystr "ff\n"⟩ (by decide)
  · exact ((write_ref_no_entry lgC4 hC4e (pystr "ee") (pystr "refs/heads/b")
      (by decide) rfl).2 (by decide)).1

def h8 : Helper :=
  ⟨pystr "/repo",
   [(pystr "refs/heads/main", (1, pystr "aa"))],
   [(pystr "refs/heads/main", pystr "aa")],
   false,
   ⟨[(pystr "/repo/HEAD", ⟨0, pystr "ref: refs/heads/main\n"⟩),
     (pystr "/repo/refs/heads/main", ⟨1, pystr "aa\n"⟩)], 2⟩⟩

/-- C8 counterexample: deleting the ref the remote HEAD targets replies
with the message carrying a trailing colon and the HEAD target, not
exactly the string the claim gives. -/
theorem delete_current_counterexample :
    Helper.delete h8 (pystr "refs/heads/main")
      = .ok ([pystr "error refs/heads/main refusing to delete the current branch: refs/heads/main"],
             h8) ∧
    ¬ (pystr "error refs/heads/main refusing to delete the current branch: refs/heads/main"
       = pystr "error refs/heads/main refusing to delete the current branch") := by
  exact ⟨by decide, by decide⟩

/-- C8 amended: deleting the ref the remote HEAD currently targets replies
exactly with: error, the ref, the words refusing to delete the current
branch, a colon, and the HEAD target, and performs no remote deletion (the
session state, including the remote, is returned unchanged); for any other
ref the delete succeeds (an already-deleted remote file is also success),
replies ok, and purges the name from both session caches. -/
theorem delete_current_branch (h : Helper) (ref : PyStr) :
    (∀ rv target, h.read_symbolic_ref (pystr "HEAD") = some (rv, target) →
      ref = target →
      Helper.delete h ref
        = .ok ([pystr "error " ++ ref ++ pystr " refusing to delete the current branch: "
                ++ target], h)) ∧
    ((∀ rv target, h.read_symbolic_ref (pystr "HEAD") = some (rv, target) → ¬ ref = target) →
      (pystr "refs/").isPrefixOf ref = true →
      Helper.delete h ref
        = .ok ([pystr "ok " ++ ref],
            { h with remote := filesDelete h.remote (pyJoin h.path ref),
                     refs := h.refs.filter (fun e => ¬ e.1 = ref),
                     pushed := h.pushed.filter (fun e => ¬ e.1 = ref) }) ∧
      (∀ h2 : Helper,
        Helper.delete h ref = .ok ([pystr "ok " ++ ref], h2) →
        h2.refsLookup ref = none ∧ h2.pushedLookup ref = none ∧
        h2.remote.lookup (pyJoin h.path ref) = none)) := by
  constructor
  · intro rv target hhead heq
    unfold Helper.delete
    rw [hhead]
    simp [heq]
  · intro hnot hpre
    have hrun : Helper.deleteRun h ref
        = .ok ([pystr "ok " ++ ref],
            { h with remote := filesDelete h.remote (pyJoin h.path ref),
                     refs := h.refs.filter (fun e => ¬ e.1 = ref),
                     pushed := h.pushed.filter (fun e => ¬ e.1 = ref) }) := by
      unfold Helper.deleteRun Helper.ref_path
      simp [hpre, except_bind_ok]
    have hdel : Helper.delete h ref
        = .ok ([pystr "ok " ++ ref],
            { h with remote := filesDelete h.remote (pyJoin h.path ref),
                     refs := h.refs.filter (fun e => ¬ e.1 = ref),
                     pushed := h.pushed.filter (fun e => ¬ e.1 = ref) }) := by
      unfold Helper.delete
      cases hhead : h.read_symbolic_ref (pystr "HEAD") with
      | none => exact hrun
      | some pr =>
        obtain ⟨rv, target⟩ := pr
        have hne : ¬ ref = target := hnot rv target hhead
        simpa [hne] using hrun
    refine ⟨hdel, ?_⟩
    intro h2 h2eq
    rw [hdel] at h2eq
    simp only [Except.ok.injEq, Prod.mk.injEq, List.cons.injEq, and_true] at h2eq
    obtain ⟨-, h2def⟩ := h2eq
    rw [← h2def]
    refine ⟨?_, ?_, ?_⟩
    · simp [Helper.refsLookup, find_filter_none]
    · simp [Helper.pushedLookup, find_filter_none]
    · simp [Remote.lookup, filesDelete, find_filter_none]

/-- Witness for the amended C8: both the refusal and the successful delete
(with cache purge) at concrete states. -/
theorem delete_current_branch_witness :
    (Helper.delete h8 (pystr "refs/heads/main")
      = .ok ([pystr "error " ++ pystr "refs/heads/main"
              ++ pystr " refusing to delete the current branch: "
              ++ pystr "refs/heads/main"], h8)) ∧
    (Helper.delete h8 (pystr "refs/heads/dev")
      = .ok ([pystr "ok " ++ pystr "refs/heads/dev"],
          { h8 with remote := filesDelete h8.remote (pyJoin h8.path (pystr "refs/heads/dev")),
                    refs := h8.refs.filter (fun e => ¬ e.1 = pystr "refs/heads/dev"),
                    pushed := h8.pushed.filter (fun e => ¬ e.1 = pystr "refs/heads/dev") })) := by
  constructor
  · exact (delete_current_branch h8 (pystr "refs/heads/main")).1
      0 (pystr "refs/heads/main") (by decide) rfl
  · exact ((delete_current_branch h8 (pystr "refs/heads/dev")).2
      (by intro rv target hh; rw [show h8.read_symbolic_ref (pystr "HEAD")
            = some (0, pystr "refs/heads/main") by decide] at hh
          injection hh with hh2
          injection hh2 with hh3 hh4
          subst hh4; decide)
      (by decide)).1

/-- A successful write_symbolic_ref leaves the path unchanged and the
remote holding the stored symbolic-ref file. -/
theorem write_symbolic_ref_ok (h : Helper) (p ref : PyStr) (rev : Option Nat)
    (h2 : Helper)
    (hw : Helper.write_symbolic_ref h p ref rev = (true, h2)) :
    h2.path = h.path ∧
      h2.remote = h.remote.store (pyJoin h.path p) (pystr "ref: " ++ ref ++ pystr "\n") := by
  have main : ∀ m : WriteMode,
      (match filesUpload h.remote (pyJoin h.path p) (pystr "ref: " ++ ref ++ pystr "\n") m with
        | Except.error _ => (false, h)
        | Except.ok r2 => (true, { h with remote := r2 })) = (true, h2) →
      h2.path = h.path ∧
        h2.remote = h.remote.store (pyJoin h.path p) (pystr "ref: " ++ ref ++ pystr "\n") := by
    intro m hm
    cases hup : filesUpload h.remote (pyJoin h.path p) (pystr "ref: " ++ ref ++ pystr "\n") m with
    | error e => rw [hup] at hm; simp at hm
    | ok r2 =>
      rw [hup] at hm
      simp only [Prod.mk.injEq, true_and] at hm
      rw [← hm]
      exact ⟨rfl, filesUpload_ok _ _ _ _ _ hup⟩
  cases rev with
  | none => exact main WriteMode.add hw
  | some r => exact main (WriteMode.update r) hw

/-- C10: write_symbolic_ref stores exactly the literal prefix, the target
and a newline; read_symbolic_ref slices off exactly the five-character
prefix (by fixed-length slicing, whatever the content) and strips trailing
whitespace; for a target with no trailing whitespace a successful write
followed by a read with no intervening write returns the pair of the new
revision and the target. -/
theorem symbolic_ref_roundtrip (h : Helper) (name t : PyStr) (rev : Option Nat)
    (h2 : Helper)
    (ht : ∀ a, t.getLast? = some a → isWsChar a = false)
    (hw : Helper.write_symbolic_ref h name t rev = (true, h2)) :
    h2.remote.lookup (pyJoin h.path name)
      = some ⟨h.remote.counter, pystr "ref: " ++ t ++ pystr "\n"⟩ ∧
    Helper.read_symbolic_ref h2 name = some (h.remote.counter, t) := by
  obtain ⟨hp, hr⟩ := write_symbolic_ref_ok h name t rev h2 hw
  have hlook : h2.remote.lookup (pyJoin h.path name)
      = some ⟨h.remote.counter, pystr "ref: " ++ t ++ pystr "\n"⟩ := by
    rw [hr]; exact store_lookup_self _ _ _
  refine ⟨hlook, ?_⟩
  have hdown : filesDownload h2.remote (pyJoin h.path name)
      = some (h.remote.counter, pystr "ref: " ++ t ++ pystr "\n") := by
    rw [filesDownload, hlook]; rfl
  unfold Helper.read_symbolic_ref
  rw [hp, hdown]
  have hdrop : (pystr "ref: " ++ t ++ pystr "\n").drop (pystr "ref: ").length
      = t ++ pystr "\n" := by
    rw [List.append_assoc, List.drop_left]
  show some (h.remote.counter,
    rstripWs isWsChar ((pystr "ref: " ++ t ++ pystr "\n").drop (pystr "ref: ").length)) = _
  rw [hdrop]
  show some (h.remote.counter, rstripWs isWsChar (t ++ ['\n'])) = _
  rw [rstripWs_append_ws isWsChar t '\n' (by decide),
    rstripWs_no_trailing isWsChar t ht]

def h10 : Helper := ⟨pystr "/repo", [], [], false, ⟨[], 0⟩⟩

def h10b : Helper :=
  { h10 with remote := (h10.remote.store (pyJoin h10.path (pystr "HEAD"))
      (pystr "ref: " ++ pystr "refs/heads/b" ++ pystr "\n")) }

/-- Witness for C10: a concrete write of HEAD followed by a read. -/
theorem symbolic_ref_roundtrip_witness :
    Helper.read_symbolic_ref h10b (pystr "HEAD") = some (0, pystr "refs/heads/b") := by
  have happ := symbolic_ref_roundtrip h10 (pystr "HEAD") (pystr "refs/heads/b") none h10b
    (by intro a ha
        have hb : a = 'b' := by
          have : (pystr "refs/heads/b").getLast? = some 'b' := by decide
          rw [this] at ha
          exact (Option.some.injEq _ _ ▸ ha).symm
        rw [hb]; decide)
    (by decide)
  exact happ.2

theorem uploadAll_ok (h : Helper) (upOk : PyStr → Bool) (objects : List PyStr)
    (evs : List Helper.Event) (hok : Helper.uploadAll h upOk objects = .ok evs) :
    evs = objects.map (fun o => Helper.Event.upload o (h.object_path o)) := by
  induction objects generalizing evs with
  | nil =>
    unfold Helper.uploadAll at hok
    simpa using hok.symm
  | cons o os ih =>
    unfold Helper.uploadAll at hok
    by_cases hu : upOk o
    · rw [if_pos hu] at hok
      cases hrec : Helper.uploadAll h upOk os with
      | error e => rw [hrec] at hok; simp [Except.map] at hok
      | ok evs2 =>
        rw [hrec] at hok
        simp only [Except.map] at hok
        have := Except.ok.inj hok
        rw [← this, ih evs2 hrec]
        simp
    · rw [if_neg hu] at hok
      simp at hok

theorem uploadAll_fails (h : Helper) (upOk : PyStr → Bool) (objects : List PyStr)
    (o : PyStr) (hmem : o ∈ objects) (hbad : upOk o = false) :
    Helper.uploadAll h upOk objects = .error () := by
  induction objects with
  | nil => cases hmem
  | cons a os ih =>
    unfold Helper.uploadAll
    by_cases ha : upOk a
    · rw [if_pos ha]
      have hmem2 : o ∈ os := by
        cases List.mem_cons.mp hmem with
        | inl he => rw [he] at hbad; rw [hbad] at ha; cases ha
        | inr hm => exact hm
      rw [ih hmem2]
      rfl
    · rw [if_neg ha]

theorem write_ref_events (lg : LocalGit) (h : Helper) (sha dst : PyStr) (force : Bool)
    (res : Option PyStr) (h2 : Helper) (evs : List Helper.Event)
    (hw : Helper.write_ref lg h sha dst force = .ok (res, h2, evs)) :
    (∀ e ∈ evs, e = Helper.Event.refWrite (pyJoin h.path dst)) ∧
    (res = none → evs = [Helper.Event.refWrite (pyJoin h.path dst)]) := by
  unfold Helper.write_ref at hw
  by_cases hpre : (pystr "refs/").isPrefixOf dst
  · have hpath : h.ref_path dst = .ok (pyJoin h.path dst) := by
      unfold Helper.ref_path; rw [if_pos hpre]
    rw [hpath, except_bind_ok] at hw
    cases hmode : Helper.write_ref_mode lg h sha dst force with
    | inl err =>
      rw [hmode] at hw
      dsimp only at hw
      simp only [Except.ok.injEq, Prod.mk.injEq] at hw
      obtain ⟨hres, -, hevs⟩ := hw
      rw [← hevs]
      constructor
      · intro e he; cases he
      · intro hn; simp [hn] at hres
    | inr mode =>
      rw [hmode] at hw
      dsimp only at hw
      cases hup : filesUpload h.remote (pyJoin h.path dst) (sha ++ pystr "\n") mode with
      | error e =>
        cases e
        rw [hup] at hw
        dsimp only at hw
        simp only [Except.ok.injEq, Prod.mk.injEq] at hw
        obtain ⟨hres, -, hevs⟩ := hw
        rw [← hevs]
        constructor
        · intro e2 he2
          simpa using List.mem_singleton.mp he2
        · intro hn; simp [hn] at hres
      | ok r2 =>
        rw [hup] at hw
        dsimp only at hw
        simp only [Except.ok.injEq, Prod.mk.injEq] at hw
        obtain ⟨-, -, hevs⟩ := hw
        rw [← hevs]
        constructor
        · intro e2 he2
          simpa using List.mem_singleton.mp he2
        · intro hn; rfl
  · have hpath : h.ref_path dst = .error (.valueError "invalid ref name") := by
      unfold Helper.ref_path; rw [if_neg hpre]
    rw [hpath] at hw
    cases hw

/-- C1: on any push invocation that completes (replies on the protocol
rather than dying), the remote-write trace is exactly the uploads of every
object reported by list_objects for the source and the session excludes,
each to its object path, in order, followed only by ref-file write events;
when the reply is ok the trace ends in exactly the one ref write for dst.
Moreover if any object upload fails, the push aborts with a fatal exit of
status 1 (at non-debug verbosity), so the ref file is never touched while
an upload is outstanding. -/
theorem push_objects_before_ref (lg : LocalGit) (upOk : PyStr → Bool)
    (verbosity : Nat) (h : Helper) (src dst : PyStr) :
    (∀ out h2 tr, Helper.push lg upOk verbosity h src dst = .ok (out, h2, tr) →
      ∃ evs2,
        tr = (lg.list_objects (Helper.stripForce src).1
            (h.refs.map (fun e => e.2.2) ++ h.pushed.map (fun e => e.2))).map
            (fun o => Helper.Event.upload o (h.object_path o)) ++ evs2 ∧
        (∀ e ∈ evs2, e = Helper.Event.refWrite (pyJoin h.path dst)) ∧
        (out = [pystr "ok " ++ dst] → evs2 = [Helper.Event.refWrite (pyJoin h.path dst)])) ∧
    (∀ o ∈ lg.list_objects (Helper.stripForce src).1
        (h.refs.map (fun e => e.2.2) ++ h.pushed.map (fun e => e.2)),
      upOk o = false → verbosity < 2 →
      Helper.push lg upOk verbosity h src dst
        = .error (.fatalExit 1
            (pystr "exception while writing objects (run with -v for details)"))) := by
  constructor
  · intro out h2 tr hp
    unfold Helper.push at hp
    cases hfb : Helper.stripForce src with
    | mk src2 force =>
      rw [hfb] at hp
      dsimp only at hp
      cases hup : Helper.uploadAll h upOk (lg.list_objects src2
          (h.refs.map (fun e => e.2.2) ++ h.pushed.map (fun e => e.2))) with
      | error e =>
        cases e
        rw [hup] at hp
        dsimp only at hp
        by_cases hv : 2 ≤ verbosity
        · rw [if_pos hv] at hp; cases hp
        · rw [if_neg hv] at hp; cases hp
      | ok evs =>
        rw [hup] at hp
        dsimp only at hp
        cases hwr : Helper.write_ref lg h (lg.ref_value src2) dst force with
        | error e2 => rw [hwr] at hp; cases hp
        | ok triple =>
          obtain ⟨wres, wh2, wevs⟩ := triple
          rw [hwr, except_bind_ok] at hp
          have hwev := write_ref_events lg h (lg.ref_value src2) dst force wres wh2 wevs hwr
          have hevs := uploadAll_ok h upOk _ evs hup
          cases wres with
          | none =>
            dsimp only at hp
            simp only [Except.ok.injEq, Prod.mk.injEq] at hp
            obtain ⟨hout, -, htr⟩ := hp
            refine ⟨wevs, ?_, ?_, ?_⟩
            · rw [← htr, hevs]
            · exact hwev.1
            · intro _; exact hwev.2 rfl
          | some err =>
            dsimp only at hp
            simp only [Except.ok.injEq, Prod.mk.injEq] at hp
            obtain ⟨hout, -, htr⟩ := hp
            refine ⟨wevs, ?_, ?_, ?_⟩
            · rw [← htr, hevs]
            · exact hwev.1
            · intro hok
              rw [← hout] at hok
              exfalso
              have hhead := congrArg (fun l => List.head? l) hok
              simp only [List.head?] at hhead
              have hchar := congrArg (fun l => List.head? l) (Option.some.inj hhead)
              simp [pystr] at hchar
  · intro o hmem hbad hv
    unfold Helper.push
    cases hfb : Helper.stripForce src with
    | mk src2 force =>
      dsimp only
      rw [show (Helper.stripForce src).1 = src2 by rw [hfb]] at hmem
      rw [uploadAll_fails h upOk _ o hmem hbad]
      dsimp only
      rw [if_neg (by omega)]

def lg1 : LocalGit :=
  ⟨fun _ => true, fun _ _ => true, fun _ => pystr "aaaa", fun _ _ => [pystr "aaaa", pystr "bbbb"]⟩

def h1 : Helper := ⟨pystr "/repo", [], [], false, ⟨[], 0⟩⟩

/-- Witness for C1: a concrete successful push of two objects, whose trace
is the two uploads followed by the single ref write, and a concrete failing
upload that aborts fatally with exit status 1. -/
theorem push_objects_before_ref_witness :
    (∃ evs2,
      ((lg1.list_objects (pystr "refs/heads/b")
            (h1.refs.map (fun e => e.2.2) ++ h1.pushed.map (fun e => e.2))).map
            (fun o => Helper.Event.upload o (h1.object_path o)) ++ evs2
        = (lg1.list_objects (Helper.stripForce (pystr "refs/heads/b")).1
            (h1.refs.map (fun e => e.2.2) ++ h1.pushed.map (fun e => e.2))).map
            (fun o => Helper.Event.upload o (h1.object_path o)) ++ evs2) ∧
      (∀ e ∈ evs2, e = Helper.Event.refWrite (pyJoin h1.path (pystr "refs/heads/b")))) ∧
    Helper.push lg1 (fun _ => false) 1 h1 (pystr "refs/heads/b") (pystr "refs/heads/b")
      = .error (.fatalExit 1
          (pystr "exception while writing objects (run with -v for details)")) := by
  constructor
  · obtain ⟨evs2, htr, href, hok⟩ :=
      (push_objects_before_ref lg1 (fun _ => true) 1 h1
          (pystr "refs/heads/b") (pystr "refs/heads/b")).1
        [pystr "ok " ++ pystr "refs/heads/b"]
        { h1 with remote := (h1.remote.store (pystr "/repo/refs/heads/b") (pystr "aaaa\n")),
                  pushed := [(pystr "refs/heads/b", pystr "aaaa")] }
        [Helper.Event.upload (pystr "aaaa") (h1.object_path (pystr "aaaa")),
         Helper.Event.upload (pystr "bbbb") (h1.object_path (pystr "bbbb")),
         Helper.Event.refWrite (pystr "/repo/refs/heads/b")]
        (by decide)
    exact ⟨evs2, by rw [show (Helper.stripForce (pystr "refs/heads/b")).1
        = pystr "refs/heads/b" by decide], href⟩
  · exact (push_objects_before_ref lg1 (fun _ => false) 1 h1
        (pystr "refs/heads/b") (pystr "refs/heads/b")).2
      (pystr "aaaa") (by decide) rfl (by omega)

def lg9 : LocalGit :=
  ⟨fun _ => true, fun _ _ => true, fun _ => pystr "aaaa", fun _ _ => []⟩

def h9 : Helper := ⟨pystr "/repo", [], [], true, ⟨[], 0⟩⟩

/-- C9: evaluation of the push batch at the inputs that decide the claim.
A first push of the single branch refs/heads/b to an empty remote replies
ok and leaves the remote HEAD file containing a symbolic ref to that
branch (the HEAD-bootstrap success path).  But a first-push batch with TWO
refspecs reaches the condition that calls git.symbolic_ref, a function the
git module does not define (it defines only symbolic_ref_value), so the
helper dies with an AttributeError instead of preferring the destination
whose source matches the local HEAD. -/
theorem first_push_head_bootstrap_eval :
    ((Helper.do_push lg9 (fun _ => true) 1 h9
          [pystr "push refs/heads/b:refs/heads/b"] none []).map
        (fun r => (r.1, filesDownload r.2.remote (pystr "/repo/HEAD"))))
      = .ok ([pystr "ok refs/heads/b", pystr ""],
             some (1, pystr "ref: refs/heads/b\n")) ∧
    Helper.do_push lg9 (fun _ => true) 1 h9
        [pystr "push refs/heads/a:refs/heads/a", pystr "push refs/heads/b:refs/heads/b"]
        none []
      = .error (.attributeError
          "module git_remote_dropbox.git has no attribute symbolic_ref") := by
  exact ⟨by decide, by decide⟩

theorem put_single_replicate_ok (mr : Nat) (k : Nat) :
    ∀ (retries : Nat) (rest : Script), retries + k ≤ mr →
    put_single mr retries (List.replicate k .internalServerError ++ .ok :: rest)
      = .ok rest := by
  induction k with
  | zero => intro retries rest _; simp [put_single]
  | succ j ih =>
    intro retries rest hk
    rw [List.replicate_succ, List.cons_append]
    show put_single mr retries (.internalServerError :: _) = _
    unfold put_single
    rw [if_pos (by omega)]
    exact ih (retries + 1) rest (by omega)

theorem put_single_replicate_fail (mr : Nat) (k : Nat) :
    ∀ (retries : Nat) (rest : Script), retries + k = mr + 1 → 1 ≤ k →
    put_single mr retries (List.replicate k .internalServerError ++ rest)
      = .error .internalServerError := by
  induction k with
  | zero => intro _ _ _ hk; omega
  | succ j ih =>
    intro retries rest hk _
    rw [List.replicate_succ, List.cons_append]
    show put_single mr retries (.internalServerError :: _) = _
    unfold put_single
    by_cases hj : j = 0
    · subst hj
      rw [if_neg (by omega)]
    · rw [if_pos (by omega)]
      exact ih (retries + 1) rest (by omega) (by omega)

theorem put_chunked_ise_step (cs mr dl offset retries : Nat) (s : Script)
    (h : retries < mr) :
    put_chunked cs mr dl offset retries (.internalServerError :: s)
      = put_chunked cs mr dl offset (retries + 1) s := by
  conv_lhs => unfold put_chunked
  rw [if_pos h]

theorem put_chunked_ise_exhaust (cs mr dl offset : Nat) (s : Script) :
    put_chunked cs mr dl offset mr (.internalServerError :: s)
      = .error .internalServerError := by
  conv_lhs => unfold put_chunked
  rw [if_neg (lt_irrefl mr)]

theorem put_chunked_offset_seek (cs mr dl offset retries c : Nat) (s : Script)
    (h : retries < mr) :
    put_chunked cs mr dl offset retries (.offsetError c :: s)
      = put_chunked cs mr dl c (retries + 1) s := by
  conv_lhs => unfold put_chunked
  show (if retries < mr then put_chunked cs mr dl c (retries + 1) s
    else Except.error PutErr.offsetError) = _
  rw [if_pos h]

theorem put_chunked_ok_start (cs mr dl retries : Nat) (s : Script) :
    put_chunked cs mr dl 0 retries (.ok :: s)
      = put_chunked cs mr dl (0 + cs) retries s := by
  conv_lhs => unfold put_chunked
  rw [if_pos rfl]

theorem put_chunked_ok_finish (cs mr dl offset retries : Nat) (s : Script)
    (hoff : ¬ offset = 0) (hend : ¬ offset + cs < dl) :
    put_chunked cs mr dl offset retries (.ok :: s) = .ok s := by
  conv_lhs => unfold put_chunked
  rw [if_neg hoff, if_neg hend]

theorem put_chunked_replicate_ise (cs mr dl : Nat) (k : Nat) :
    ∀ (offset retries : Nat) (s : Script), retries + k ≤ mr →
    put_chunked cs mr dl offset retries (List.replicate k .internalServerError ++ s)
      = put_chunked cs mr dl offset (retries + k) s := by
  induction k with
  | zero => intro offset retries s _; simp
  | succ j ih =>
    intro offset retries s hk
    rw [List.replicate_succ, List.cons_append,
      put_chunked_ise_step cs mr dl offset retries _ (by omega),
      ih offset (retries + 1) s (by omega)]
    congr 1
    omega

theorem chunk_size_pos : 0 < CHUNK_SIZE := by norm_num [CHUNK_SIZE]

/-- C7 counterexample: a payload of exactly two chunks where EACH chunk
suffers only two transient InternalServerErrors (two at the session-start
chunk, two at the finish chunk) -- within a per-chunk budget of
MAX_RETRIES = 3 -- still makes the upload raise, because the retry counter
is shared across the whole object: the fourth transient error anywhere
exhausts it. -/
theorem put_object_per_chunk_counterexample :
    put_object (List.replicate (2 * CHUNK_SIZE) 0)
        [.internalServerError, .internalServerError, .ok,
         .internalServerError, .internalServerError, .ok]
      = .error .internalServerError ∧
    2 ≤ MAX_RETRIES ∧ 2 + 2 = MAX_RETRIES + 1 := by
  refine ⟨?_, by norm_num [MAX_RETRIES], by norm_num [MAX_RETRIES]⟩
  unfold put_object
  rw [List.length_replicate,
    if_neg (by have := chunk_size_pos; omega)]
  show put_chunked CHUNK_SIZE MAX_RETRIES (2 * CHUNK_SIZE) 0 0
      (List.replicate 2 .internalServerError ++ .ok ::
        (.internalServerError :: .internalServerError :: [.ok])) = _
  rw [put_chunked_replicate_ise CHUNK_SIZE MAX_RETRIES (2 * CHUNK_SIZE) 2 0 0 _
      (by norm_num [MAX_RETRIES])]
  rw [put_chunked_ok_start]
  rw [put_chunked_ise_step _ _ _ _ _ _ (by norm_num [MAX_RETRIES])]
  show put_chunked CHUNK_SIZE MAX_RETRIES (2 * CHUNK_SIZE) (0 + CHUNK_SIZE) MAX_RETRIES
      (.internalServerError :: [.ok]) = _
  exact put_chunked_ise_exhaust _ _ _ _ _

/-- C7 amended: transient errors are retried against a bounded budget of
MAX_RETRIES = 3 shared across the whole _put_object call (NOT per chunk):
a single-shot upload (payload at most CHUNK_SIZE) tolerates up to
MAX_RETRIES InternalServerErrors before succeeding and fails on the
MAX_RETRIES plus first; a chunked session upload tolerates any split of up
to MAX_RETRIES InternalServerErrors across its chunks and fails as soon as
the total exceeds MAX_RETRIES; and an UploadSessionOffsetError seeks the
cursor to the server-reported correct offset with the reset counting
toward the same budget. -/
theorem put_object_shared_budget :
    (∀ (data : Bytes) (k : Nat) (rest : Script),
      data.length ≤ CHUNK_SIZE → k ≤ MAX_RETRIES →
      put_object data (List.replicate k .internalServerError ++ .ok :: rest)
        = .ok rest) ∧
    (∀ (data : Bytes) (rest : Script), data.length ≤ CHUNK_SIZE →
      put_object data (List.replicate (MAX_RETRIES + 1) .internalServerError ++ rest)
        = .error .internalServerError) ∧
    (∀ (data : Bytes) (k1 k2 : Nat) (rest : Script),
      data.length = 2 * CHUNK_SIZE → k1 + k2 ≤ MAX_RETRIES →
      put_object data (List.replicate k1 .internalServerError ++ .ok ::
        (List.replicate k2 .internalServerError ++ .ok :: rest)) = .ok rest) ∧
    (∀ (data : Bytes) (k1 k2 : Nat) (rest : Script),
      data.length = 2 * CHUNK_SIZE → k1 + k2 = MAX_RETRIES + 1 → 1 ≤ k2 →
      k1 ≤ MAX_RETRIES →
      put_object data (List.replicate k1 .internalServerError ++ .ok ::
        (List.replicate k2 .internalServerError ++ rest))
        = .error .internalServerError) ∧
    (∀ (cs mr dl offset retries c : Nat) (s : Script), retries < mr →
      put_chunked cs mr dl offset retries (.offsetError c :: s)
        = put_chunked cs mr dl c (retries + 1) s) := by
  refine ⟨?_, ?_, ?_, ?_, put_chunked_offset_seek⟩
  · intro data k rest hlen hk
    unfold put_object
    rw [if_pos hlen]
    exact put_single_replicate_ok MAX_RETRIES k 0 rest (by omega)
  · intro data rest hlen
    unfold put_object
    rw [if_pos hlen]
    exact put_single_replicate_fail MAX_RETRIES (MAX_RETRIES + 1) 0 rest (by omega) (by omega)
  · intro data k1 k2 rest hlen hk
    unfold put_object
    rw [hlen, if_neg (by have := chunk_size_pos; omega)]
    rw [put_chunked_replicate_ise CHUNK_SIZE MAX_RETRIES (2 * CHUNK_SIZE) k1 0 0 _
        (by omega)]
    rw [put_chunked_ok_start]
    rw [put_chunked_replicate_ise CHUNK_SIZE MAX_RETRIES (2 * CHUNK_SIZE) k2 _ _ _
        (by omega)]
    exact put_chunked_ok_finish _ _ _ _ _ _ (by have := chunk_size_pos; omega)
      (by omega)
  · intro data k1 k2 rest hlen hsum hk2 hk1
    unfold put_object
    rw [hlen, if_neg (by have := chunk_size_pos; omega)]
    rw [put_chunked_replicate_ise CHUNK_SIZE MAX_RETRIES (2 * CHUNK_SIZE) k1 0 0 _
        (by omega)]
    rw [put_chunked_ok_start]
    obtain ⟨j, hj⟩ : ∃ j, k2 = j + 1 := ⟨k2 - 1, by omega⟩
    subst hj
    rw [show List.replicate (j + 1) NetOutcome.internalServerError ++ rest
        = List.replicate j NetOutcome.internalServerError ++
          (NetOutcome.internalServerError :: rest) by
      rw [List.replicate_succ', List.append_assoc]
      rfl]
    rw [put_chunked_replicate_ise CHUNK_SIZE MAX_RETRIES (2 * CHUNK_SIZE) j _ _ _
        (by omega)]
    have hfull : 0 + k1 + j = MAX_RETRIES := by omega
    rw [hfull]
    exact put_chunked_ise_exhaust _ _ _ _ _

/-- Witness for the amended C7: concrete runs through the shared-budget
theorem at payload lengths on both sides of the chunk threshold. -/
theorem put_object_shared_budget_witness :
    put_object ([] : Bytes) [.internalServerError, .ok] = .ok [] ∧
    put_object ([] : Bytes)
        [.internalServerError, .internalServerError, .internalServerError,
         .internalServerError] = .error .internalServerError ∧
    put_object (List.replicate (2 * CHUNK_SIZE) 0)
        [.internalServerError, .ok, .internalServerError, .ok] = .ok [] := by
  refine ⟨?_, ?_, ?_⟩
  · exact put_object_shared_budget.1 [] 1 [] (by norm_num) (by norm_num [MAX_RETRIES])
  · exact put_object_shared_budget.2.1 [] [] (by norm_num)
  · exact put_object_shared_budget.2.2.1 (List.replicate (2 * CHUNK_SIZE) 0) 1 1 []
      (by simp) (by norm_num [MAX_RETRIES])

theorem char_toNat_ofNat (n : Nat) (h : n.isValidChar) : (Char.ofNat n).toNat = n := by
  unfold Char.ofNat
  rw [dif_pos h]
  rfl

theorem decRepr_digit_bounds (n : Nat) :
    ∀ c ∈ decRepr n, 48 ≤ c.toNat ∧ c.toNat ≤ 57 := by
  induction n using Nat.strong_induction_on with
  | _ n ih =>
    rw [decRepr]
    by_cases h : n < 10
    · rw [dif_pos h]
      intro c hc
      rw [List.mem_singleton] at hc
      subst hc
      rw [char_toNat_ofNat (48 + n) (Or.inl (by omega))]
      omega
    · rw [dif_neg h]
      intro c hc
      rcases List.mem_append.mp hc with h1 | h2
      · exact ih (n / 10) (Nat.div_lt_self (by omega) (by omega)) c h1
      · rw [List.mem_singleton] at h2
        subst h2
        have hm : n % 10 < 10 := Nat.mod_lt n (by omega)
        rw [char_toNat_ofNat (48 + n % 10) (Or.inl (by omega))]
        omega

theorem digit_byte_ok (b : Nat) (h1 : 48 ≤ b) (h2 : b ≤ 57) :
    isWsByte b = false ∧ ¬ b = 0 := by
  constructor
  · simp only [isWsByte, Bool.or_eq_false_iff, decide_eq_false_iff_not]
    omega
  · omega

theorem kind_bytes_ok (k : PyStr)
    (hk : k = pystr "blob" ∨ k = pystr "commit" ∨ k = pystr "tree" ∨ k = pystr "tag") :
    strBytes k ≠ [] ∧ ∀ b ∈ strBytes k, isWsByte b = false ∧ ¬ b = 0 := by
  rcases hk with h | h | h | h <;> subst h <;> decide

theorem bytesStr_strBytes (k : PyStr) : bytesStr (strBytes k) = k := by
  unfold bytesStr strBytes
  rw [List.map_map]
  have : (Char.ofNat ∘ Char.toNat) = id := by
    funext c
    exact Char.ofNat_toNat c
  rw [this, List.map_id]

theorem option_bind_some {α β : Type} (a : α) (f : α → Option β) :
    (some a >>= f) = f a := rfl

/-- C5: the loose-object codec round-trips: for every object present in
the local repository with one of the four git kinds, and a store whose
entry is consistent with the git hash, decode_object applied to
encode_object of the sha recomputes the same sha (and re-stores the same
object), given only that zlib decompression inverts compression. -/
theorem encode_decode_roundtrip (z : Codec) (hash : GitHash) (repo : LocalRepo)
    (sha : PyStr) (obj : GitObject)
    (hz : ∀ b, z.decompress (z.compress b) = some b)
    (hrepo : repoLookup repo sha = some obj)
    (hkind : obj.kind = pystr "blob" ∨ obj.kind = pystr "commit" ∨
             obj.kind = pystr "tree" ∨ obj.kind = pystr "tag")
    (hhash : hash obj.kind obj.payload = sha) :
    ∃ d, encode_object z repo sha = some d ∧
      decode_object z hash repo d = some (sha, repoInsert repo sha obj) := by
  obtain ⟨hkne, hkbytes⟩ := kind_bytes_ok obj.kind hkind
  have henc : encode_object z repo sha
      = some (z.compress (strBytes obj.kind ++ [32]
          ++ strBytes (decRepr obj.payload.length) ++ [0] ++ obj.payload)) := by
    unfold encode_object
    rw [hrepo]
    rfl
  refine ⟨_, henc, ?_⟩
  unfold decode_object
  rw [hz]
  rw [option_bind_some]
  have hassoc : strBytes obj.kind ++ [32] ++ strBytes (decRepr obj.payload.length)
      ++ [0] ++ obj.payload
      = (strBytes obj.kind ++ [32] ++ strBytes (decRepr obj.payload.length))
        ++ (0 :: obj.payload) := by
    rw [List.append_assoc _ [0] obj.payload]
    rfl
  rw [hassoc]
  have hnosel : (0 : Nat) ∉ strBytes obj.kind ++ [32]
      ++ strBytes (decRepr obj.payload.length) := by
    intro hmem
    rcases List.mem_append.mp hmem with hmem2 | hsize
    · rcases List.mem_append.mp hmem2 with hker | h32
      · exact (hkbytes 0 hker).2 rfl
      · rw [List.mem_singleton] at h32; omega
    · rw [strBytes, List.mem_map] at hsize
      obtain ⟨c, hc, hc0⟩ := hsize
      have hb := decRepr_digit_bounds obj.payload.length c hc
      omega
  rw [splitOnce_append_cons 0 _ _ hnosel]
  rw [option_bind_some]
  dsimp only
  have htokform : strBytes obj.kind ++ [32] ++ strBytes (decRepr obj.payload.length)
      = strBytes obj.kind ++ 32 :: strBytes (decRepr obj.payload.length) := by
    rw [List.append_assoc]
    rfl
  have htok : splitWs isWsByte (strBytes obj.kind ++ [32]
      ++ strBytes (decRepr obj.payload.length))
      = strBytes obj.kind :: splitWs isWsByte (strBytes (decRepr obj.payload.length)) := by
    rw [htokform]
    exact splitWs_token_cons isWsByte (strBytes obj.kind) 32 _
      (fun b hb => (hkbytes b hb).1) hkne (by decide)
  rw [htok]
  rw [List.getElem?_cons_zero]
  rw [option_bind_some]
  unfold write_object
  rw [bytesStr_strBytes, hhash]

def hashC5 : GitHash := fun _ _ => pystr "ab"

def repoC5 : LocalRepo := [(pystr "ab", ⟨pystr "blob", []⟩)]

def codecC5 : Codec := ⟨fun b => b, fun b => some b⟩

/-- Witness for C5: a concrete zero-length blob round-trips through the
codec. -/
theorem encode_decode_roundtrip_witness :
    ∃ d, encode_object codecC5 repoC5 (pystr "ab") = some d ∧
      decode_object codecC5 hashC5 repoC5 d
        = some (pystr "ab", repoInsert repoC5 (pystr "ab") ⟨pystr "blob", []⟩) :=
  encode_decode_roundtrip codecC5 hashC5 repoC5 (pystr "ab") ⟨pystr "blob", []⟩
    (fun _ => rfl) rfl (Or.inl rfl) rfl

theorem repoInsert_wf (hash : GitHash) (repo : LocalRepo) (kind : PyStr)
    (contents : Bytes) (hwf : repoWellFormed hash repo) :
    repoWellFormed hash (repoInsert repo (hash kind contents) ⟨kind, contents⟩) := by
  intro e he
  rcases List.mem_cons.mp he with heq | hmem
  · rw [heq]
  · exact hwf e (List.mem_of_mem_filter hmem)

theorem decode_object_wf (z : Codec) (hash : GitHash) (repo : LocalRepo)
    (data : Bytes) (computed : PyStr) (repo2 : LocalRepo)
    (hd : decode_object z hash repo data = some (computed, repo2))
    (hwf : repoWellFormed hash repo) : repoWellFormed hash repo2 := by
  unfold decode_object at hd
  cases hdec : z.decompress data with
  | none => rw [hdec] at hd; cases hd
  | some dec =>
    rw [hdec, option_bind_some] at hd
    cases hsp : splitOnce 0 dec with
    | none => rw [hsp] at hd; cases hd
    | some pr =>
      obtain ⟨header, contents⟩ := pr
      rw [hsp, option_bind_some] at hd
      dsimp only at hd
      cases htk : (splitWs isWsByte header)[0]? with
      | none => rw [htk] at hd; cases hd
      | some tok =>
        rw [htk, option_bind_some] at hd
        unfold write_object at hd
        have hrepo2 : repoInsert repo (hash (bytesStr tok) contents)
            ⟨bytesStr tok, contents⟩ = repo2 := congrArg Prod.snd (Option.some.inj hd)
        rw [← hrepo2]
        exact repoInsert_wf hash repo (bytesStr tok) contents hwf

/-- C2: when a downloaded object decodes to a sha different from the
requested one, the worker emits a poisoned result naming the computed and
requested shas (followed by the sha item the code unconditionally
appends); the first result the main loop reads is that poison, which is
fatal with exit status 1; when the shas agree the worker emits the sha
alone; and in either case the local store stays well-formed (every stored
object sits under the sha of its own content), so no corrupted object
enters it. -/
theorem download_integrity (z : Codec) (hash : GitHash) (h : Helper)
    (repo : LocalRepo) (dataOf : PyStr → Option Bytes) (obj : PyStr) :
    (∀ d computed repo2, dataOf (h.object_path obj) = some d →
      decode_object z hash repo d = some (computed, repo2) →
      ¬ computed = obj →
      download_step z hash h repo dataOf obj
        = ([.poison (some (pystr "hash mismatch " ++ computed ++ pystr " != " ++ obj)),
            .item obj], repo2) ∧
      fetch_process_output
          (.poison (some (pystr "hash mismatch " ++ computed ++ pystr " != " ++ obj)))
        = .error (.fatalExit 1
            (pystr "hash mismatch " ++ computed ++ pystr " != " ++ obj))) ∧
    (∀ d computed repo2, dataOf (h.object_path obj) = some d →
      decode_object z hash repo d = some (computed, repo2) →
      computed = obj →
      download_step z hash h repo dataOf obj = ([.item obj], repo2)) ∧
    (∀ out repo2, download_step z hash h repo dataOf obj = (out, repo2) →
      repoWellFormed hash repo → repoWellFormed hash repo2) := by
  refine ⟨?_, ?_, ?_⟩
  · intro d computed repo2 hdata hdec hne
    unfold download_step
    rw [hdata]
    dsimp only
    rw [hdec]
    dsimp only
    rw [if_pos hne]
    exact ⟨rfl, rfl⟩
  · intro d computed repo2 hdata hdec heq
    unfold download_step
    rw [hdata]
    dsimp only
    rw [hdec]
    dsimp only
    rw [if_neg (by rw [heq]; exact fun hc => hc rfl)]
  · intro out repo2 hstep hwf
    unfold download_step at hstep
    cases hdata : dataOf (h.object_path obj) with
    | none =>
      rw [hdata] at hstep
      have h2 : repo = repo2 := congrArg Prod.snd hstep
      rw [← h2]
      exact hwf
    | some d =>
      rw [hdata] at hstep
      dsimp only at hstep
      cases hdec : decode_object z hash repo d with
      | none =>
        rw [hdec] at hstep
        have h2 : repo = repo2 := congrArg Prod.snd hstep
        rw [← h2]
        exact hwf
      | some pr =>
        obtain ⟨computed, repoNew⟩ := pr
        rw [hdec] at hstep
        dsimp only at hstep
        have hwf2 := decode_object_wf z hash repo d computed repoNew hdec hwf
        by_cases hne : ¬ computed = obj
        · rw [if_pos hne] at hstep
          have h2 : repoNew = repo2 := congrArg Prod.snd hstep
          rw [← h2]
          exact hwf2
        · rw [if_neg hne] at hstep
          have h2 : repoNew = repo2 := congrArg Prod.snd hstep
          rw [← h2]
          exact hwf2

def hashKind : GitHash := fun k _ => k

def dataOfW : PyStr → Option Bytes := fun _ => some (strBytes (pystr "blob") ++ [32, 48, 0])

/-- Witness for C2: a concrete download whose decoded content is a blob
hashing (under the oracle hash) to a sha different from the requested one:
the worker poisons the queue first and the main loop turns it into a fatal
exit of status 1. -/
theorem download_integrity_witness :
    download_step codecC5 hashKind h10 [] dataOfW (pystr "dd")
      = ([.poison (some (pystr "hash mismatch " ++ pystr "blob" ++ pystr " != " ++ pystr "dd")),
          .item (pystr "dd")],
         [(pystr "blob", ⟨pystr "blob", []⟩)]) ∧
    fetch_process_output
        (.poison (some (pystr "hash mismatch " ++ pystr "blob" ++ pystr " != " ++ pystr "dd")))
      = .error (.fatalExit 1
          (pystr "hash mismatch " ++ pystr "blob" ++ pystr " != " ++ pystr "dd")) :=
  (download_integrity codecC5 hashKind h10 [] dataOfW (pystr "dd")).1
    (strBytes (pystr "blob") ++ [32, 48, 0]) (pystr "blob")
    [(pystr "blob", ⟨pystr "blob", []⟩)]
    rfl (by decide) (by decide)

theorem except_map_ok {ε α β : Type} (a : α) (f : α → β) :
    (Except.ok a : Except ε α).map f = .ok (f a) := rfl

theorem takeWhile_all {α : Type} (p : α → Bool) (l : List α)
    (h : ∀ a ∈ l, p a = true) : l.takeWhile p = l := by
  induction l with
  | nil => rfl
  | cons a as ih =>
    rw [List.takeWhile_cons_of_pos (h a (by simp))]
    rw [ih (fun x hx => h x (by simp [hx]))]

theorem takeWhile_append_all {α : Type} (p : α → Bool) (l1 l2 : List α)
    (h : ∀ a ∈ l1, p a = true) :
    (l1 ++ l2).takeWhile p = l1 ++ l2.takeWhile p := by
  induction l1 with
  | nil => rfl
  | cons a as ih =>
    rw [List.cons_append, List.takeWhile_cons_of_pos (h a (by simp))]
    rw [ih (fun x hx => h x (by simp [hx]))]
    rfl

/-- The second token of a line made of one known head token, a space and a
whitespace-free nonempty tail token. -/
theorem splitWs_second_token (tok t : PyStr)
    (htok : ∀ c ∈ tok, isWsChar c = false) (htokne : tok ≠ [])
    (ht : ∀ c ∈ t, isWsChar c = false) (htne : t ≠ []) :
    (splitWs isWsChar (tok ++ ' ' :: t))[1]? = some t := by
  rw [splitWs_token_cons isWsChar tok ' ' t htok htokne (by decide)]
  rw [splitWs_single isWsChar t ht htne]
  rfl

theorem collect_parents_spec (ps : List PyStr) (rest2 : List PyStr)
    (hps : ∀ p ∈ ps, p ≠ [] ∧ ∀ c ∈ p, isWsChar c = false)
    (hstop : ∀ l, rest2.head? = some l → (pystr "parent ").isPrefixOf l = false) :
    collect_parents (ps.map (fun p => pystr "parent " ++ p) ++ rest2) = .ok ps := by
  induction ps with
  | nil =>
    cases rest2 with
    | nil => rfl
    | cons l ls =>
      unfold collect_parents
      rw [List.map_nil, List.nil_append]
      dsimp only
      rw [hstop l rfl]
      simp
  | cons p ps2 ih =>
    obtain ⟨hpne, hpws⟩ := hps p (by simp)
    rw [List.map_cons, List.cons_append]
    unfold collect_parents
    rw [show (pystr "parent ").isPrefixOf (pystr "parent " ++ p) = true by
      rw [List.isPrefixOf_iff_prefix]; exact List.prefix_append _ _]
    simp only [if_true]
    rw [show pystr "parent " ++ p = pystr "parent" ++ ' ' :: p from rfl]
    rw [splitWs_second_token (pystr "parent") p (by decide) (by decide) hpws hpne]
    dsimp only
    rw [ih (fun q hq => hps q (by simp [hq]))]
    rfl

/-- One entry of the pretty-printed (cat-file -p) listing of a tree:
mode SP type SP sha TAB name. -/
structure TreeEntry where
  mode : PyStr
  kind : PyStr
  sha : PyStr
  name : PyStr
  deriving DecidableEq, Repr

def renderEntry (e : TreeEntry) : PyStr :=
  e.mode ++ ' ' :: (e.kind ++ ' ' :: (e.sha ++ '\t' :: e.name))

/-- A tree-listing entry is syntactically well formed when its mode, kind
and sha are nonempty and whitespace-free and its name contains no
newline. -/
def entryOk (e : TreeEntry) : Prop :=
  (e.mode ≠ [] ∧ ∀ c ∈ e.mode, isWsChar c = false) ∧
  (e.kind ≠ [] ∧ ∀ c ∈ e.kind, isWsChar c = false) ∧
  (e.sha ≠ [] ∧ ∀ c ∈ e.sha, isWsChar c = false) ∧
  '\n' ∉ e.name

instance (e : TreeEntry) : Decidable (entryOk e) := by
  unfold entryOk
  infer_instance

theorem submodule_marker_iff (e : TreeEntry) (he : entryOk e) :
    (pystr "160000 commit ").isPrefixOf (renderEntry e) = true ↔
      (e.mode = pystr "160000" ∧ e.kind = pystr "commit") := by
  rw [List.isPrefixOf_iff_prefix]
  constructor
  · intro hp
    rw [show pystr "160000 commit "
        = pystr "160000" ++ ' ' :: (pystr "commit" ++ ' ' :: ([] : PyStr)) by decide] at hp
    unfold renderEntry at hp
    have hp2 := hp
    have h1 := prefix_token_eq ' ' (pystr "160000") e.mode
      (pystr "commit" ++ ' ' :: ([] : PyStr)) (e.kind ++ ' ' :: (e.sha ++ '\t' :: e.name))
      (by decide)
      (by intro hm; have := he.1.2 ' ' hm; simp [isWsChar] at this)
      hp2
    have h2 := prefix_token_eq ' ' (pystr "commit") e.kind ([] : PyStr)
      (e.sha ++ '\t' :: e.name)
      (by decide)
      (by intro hm; have := he.2.1.2 ' ' hm; simp [isWsChar] at this)
      h1.2
    exact ⟨h1.1.symm, h2.1.symm⟩
  · intro ⟨hm, hk⟩
    unfold renderEntry
    rw [hm, hk]
    exact List.prefix_append (pystr "160000 commit ") (e.sha ++ '\t' :: e.name)

theorem tree_line_shas_spec (entries : List TreeEntry)
    (hok : ∀ e ∈ entries, entryOk e) :
    tree_line_shas (entries.map renderEntry)
      = .ok ((entries.filter
          (fun e => ¬ (e.mode = pystr "160000" ∧ e.kind = pystr "commit"))).map
          TreeEntry.sha) := by
  induction entries with
  | nil => rfl
  | cons e es ih =>
    have heok := hok e (by simp)
    rw [List.map_cons]
    unfold tree_line_shas
    rw [List.filter_cons]
    by_cases hsub : e.mode = pystr "160000" ∧ e.kind = pystr "commit"
    · rw [if_pos ((submodule_marker_iff e heok).mpr hsub)]
      rw [ih (fun x hx => hok x (by simp [hx]))]
      rw [if_neg (fun hdec => (of_decide_eq_true hdec) hsub)]
    · rw [if_neg (by rw [(submodule_marker_iff e heok)]; exact hsub)]
      have htoks : (splitWs isWsChar (renderEntry e))[2]? = some e.sha := by
        unfold renderEntry
        rw [splitWs_token_cons isWsChar e.mode ' ' _ heok.1.2 heok.1.1 (by decide)]
        rw [splitWs_token_cons isWsChar e.kind ' ' _ heok.2.1.2 heok.2.1.1 (by decide)]
        rw [splitWs_token_cons isWsChar e.sha '\t' _ heok.2.2.1.2 heok.2.2.1.1 (by decide)]
        rw [List.getElem?_cons_succ, List.getElem?_cons_succ, List.getElem?_cons_zero]
      rw [htoks]
      dsimp only
      rw [ih (fun x hx => hok x (by simp [hx]))]
      rw [if_pos (decide_eq_true hsub)]
      rfl

theorem newline_not_mem_render (e : TreeEntry) (he : entryOk e) :
    '\n' ∉ renderEntry e := by
  unfold renderEntry
  intro hmem
  rcases List.mem_append.mp hmem with hm | hrest
  · have := he.1.2 _ hm; simp [isWsChar] at this
  · rcases List.mem_cons.mp hrest with he1 | hrest2
    · exact absurd he1 (by decide)
    · rcases List.mem_append.mp hrest2 with hk | hrest3
      · have := he.2.1.2 _ hk; simp [isWsChar] at this
      · rcases List.mem_cons.mp hrest3 with he2 | hrest4
        · exact absurd he2 (by decide)
        · rcases List.mem_append.mp hrest4 with hs | hrest5
          · have := he.2.2.1.2 _ hs; simp [isWsChar] at this
          · rcases List.mem_cons.mp hrest5 with he3 | hname
            · exact absurd he3 (by decide)
            · exact he.2.2.2 hname

/-- C6: referenced_objects by kind.  A blob yields the empty list; a tag
whose pretty data opens with the object line yields exactly its one
target; a commit whose pretty lines are the tree line, its parent lines
and then other headers yields the tree followed by the parents in order,
stopping at the first line that does not start with the parent prefix; a
tree listing yields the sha of each entry except submodule entries (those
whose mode and kind make the line start with the marker 160000 commit);
and any other kind raises ValueError. -/
theorem referenced_objects_spec :
    (∀ c : GitCat, c.kind = pystr "blob" → referenced_objects c = .ok []) ∧
    (∀ (c : GitCat) (target tail : PyStr), c.kind = pystr "tag" →
      stripWs isWsChar c.pretty = pystr "object " ++ target ++ tail →
      target ≠ [] → (∀ ch ∈ target, isWsChar ch = false) →
      (tail = [] ∨ ∃ tl, tail = '\n' :: tl) →
      referenced_objects c = .ok [target]) ∧
    (∀ (c : GitCat) (t : PyStr) (ps rest2 : List PyStr), c.kind = pystr "commit" →
      splitOnSep '\n' (stripWs isWsChar c.pretty)
        = (pystr "tree " ++ t) :: (ps.map (fun p => pystr "parent " ++ p) ++ rest2) →
      t ≠ [] → (∀ ch ∈ t, isWsChar ch = false) →
      (∀ p ∈ ps, p ≠ [] ∧ ∀ ch ∈ p, isWsChar ch = false) →
      (∀ l, rest2.head? = some l → (pystr "parent ").isPrefixOf l = false) →
      referenced_objects c = .ok (t :: ps)) ∧
    (∀ (c : GitCat) (entries : List TreeEntry), c.kind = pystr "tree" →
      stripWs isWsChar c.pretty = joinSep '\n' (entries.map renderEntry) →
      (∀ e ∈ entries, entryOk e) →
      referenced_objects c
        = .ok ((entries.filter
            (fun e => ¬ (e.mode = pystr "160000" ∧ e.kind = pystr "commit"))).map
            TreeEntry.sha)) ∧
    (∀ c : GitCat, ¬ c.kind = pystr "blob" → ¬ c.kind = pystr "tag" →
      ¬ c.kind = pystr "commit" → ¬ c.kind = pystr "tree" →
      referenced_objects c = .error (.valueError "unexpected git object type")) := by
  refine ⟨?_, ?_, ?_, ?_, ?_⟩
  · intro c hkind
    unfold referenced_objects
    rw [if_pos hkind]
  · intro c target tail hkind hstrip htne hws htail
    unfold referenced_objects
    rw [if_neg (by rw [hkind]; decide)]
    dsimp only
    rw [if_pos hkind, hstrip]
    have hTW : ((pystr "object " ++ target) ++ tail).takeWhile
        (fun ch => decide (¬ ch = '\n')) = pystr "object " ++ target := by
      rw [takeWhile_append_all _ (pystr "object " ++ target) tail ?hall]
      case hall =>
        have hobj : ∀ x ∈ pystr "object ", (decide (¬ x = '\n')) = true := by decide
        intro a ha
        rcases List.mem_append.mp ha with h1 | h2
        · exact hobj a h1
        · have hne : ¬ a = '\n' := by
            intro heq
            have := hws a h2
            rw [heq] at this
            simp [isWsChar] at this
          exact decide_eq_true hne
      rcases htail with he | ⟨tl, htl⟩
      · rw [he, List.takeWhile_nil, List.append_nil]
      · rw [htl, List.takeWhile_cons_of_neg (by decide), List.append_nil]
    rw [hTW]
    rw [show pystr "object " ++ target = pystr "object" ++ ' ' :: target from rfl]
    rw [splitWs_second_token (pystr "object") target (by decide) (by decide) hws htne]
  · intro c t ps rest2 hkind hsplit htne htws hps hstop
    unfold referenced_objects
    rw [if_neg (by rw [hkind]; decide)]
    dsimp only
    rw [if_neg (by rw [hkind]; decide), if_pos hkind, hsplit]
    dsimp only
    rw [show pystr "tree " ++ t = pystr "tree" ++ ' ' :: t from rfl]
    rw [splitWs_second_token (pystr "tree") t (by decide) (by decide) htws htne]
    dsimp only
    rw [collect_parents_spec ps rest2 hps hstop]
    rfl
  · intro c entries hkind hjoin hok
    unfold referenced_objects
    rw [if_neg (by rw [hkind]; decide)]
    dsimp only
    rw [if_neg (by rw [hkind]; decide), if_neg (by rw [hkind]; decide),
      if_pos hkind, hjoin]
    cases hent : entries with
    | nil => rw [if_pos (by rfl)]; rfl
    | cons e es =>
      have heok := hok e (by rw [hent]; simp)
      have hrne : renderEntry e ≠ [] := by
        unfold renderEntry
        exact List.append_ne_nil_of_left_ne_nil heok.1.1 _
      have hjne : joinSep '\n' ((e :: es).map renderEntry) ≠ [] := by
        rw [List.map_cons]
        cases es with
        | nil => exact hrne
        | cons e2 es2 =>
          show renderEntry e ++ '\n' :: joinSep '\n' _ ≠ []
          exact List.append_ne_nil_of_left_ne_nil hrne _
      rw [if_neg hjne]
      rw [splitOnSep_joinSep '\n' _ (by simp)
        (by
          intro p hp
          rw [List.mem_map] at hp
          obtain ⟨e2, he2, hre⟩ := hp
          rw [← hre]
          exact newline_not_mem_render e2 (hok e2 (by rw [hent]; exact he2)))]
      exact tree_line_shas_spec (e :: es) (fun x hx => hok x (by rw [hent]; exact hx))
  · intro c h1 h2 h3 h4
    unfold referenced_objects
    rw [if_neg h1]
    dsimp only
    rw [if_neg h2, if_neg h3, if_neg h4]

/-- Witness for C6: one concrete object of each kind (and one unknown
kind) run through referenced_objects. -/
theorem referenced_objects_spec_witness :
    referenced_objects ⟨pystr "blob", pystr "hello"⟩ = .ok [] ∧
    referenced_objects ⟨pystr "tag", pystr "object abcd\ntype commit\n"⟩
      = .ok [pystr "abcd"] ∧
    referenced_objects ⟨pystr "commit", pystr "tree tt\nparent pp\nauthor a\n"⟩
      = .ok [pystr "tt", pystr "pp"] ∧
    referenced_objects
        ⟨pystr "tree", pystr "100644 blob ss\tf.txt\n160000 commit mm\tsub\n"⟩
      = .ok [pystr "ss"] ∧
    referenced_objects ⟨pystr "bogus", pystr ""⟩
      = .error (.valueError "unexpected git object type") := by
  refine ⟨?_, ?_, ?_, ?_, ?_⟩
  · exact referenced_objects_spec.1 ⟨pystr "blob", pystr "hello"⟩ rfl
  · exact referenced_objects_spec.2.1 ⟨pystr "tag", pystr "object abcd\ntype commit\n"⟩
      (pystr "abcd") ('\n' :: pystr "type commit") rfl (by decide) (by decide)
      (by decide) (Or.inr ⟨pystr "type commit", rfl⟩)
  · exact referenced_objects_spec.2.2.1
      ⟨pystr "commit", pystr "tree tt\nparent pp\nauthor a\n"⟩
      (pystr "tt") [pystr "pp"] [pystr "author a"] rfl (by decide) (by decide)
      (by decide) (by decide) (by decide)
  · exact referenced_objects_spec.2.2.2.1
      ⟨pystr "tree", pystr "100644 blob ss\tf.txt\n160000 commit mm\tsub\n"⟩
      [⟨pystr "100644", pystr "blob", pystr "ss", pystr "f.txt"⟩,
       ⟨pystr "160000", pystr "commit", pystr "mm", pystr "sub"⟩]
      rfl (by decide) (by decide)
  · exact referenced_objects_spec.2.2.2.2 ⟨pystr "bogus", pystr ""⟩
      (by decide) (by decide) (by decide) (by decide)

end GitRemoteDropbox
